import Mathlib

/-
Verification development for the Node-RED `switch` node
(`nodes/core/logic/10-switch.js`), a single-input multi-output conditional
message router with sequence-aware buffering and regrouping.

Shallow embedding notes:
 * JavaScript primitive values are modelled by `JSVal` (undefined, null,
   boolean, number, string).  Numbers are modelled as `Int`; float-specific
   behaviour is outside the model.  `NaN` arises only through `toNumber`,
   which returns `none` for non-numeric inputs; every JS comparison
   involving `NaN` is false, which the model mirrors by returning `false`
   whenever `toNumber` yields `none`.
 * The opaque JSONata sublanguage is modelled by `JsExpr`: an expression
   either evaluates to a constant or fails (throws).  The `I`/`N` variable
   bindings installed for `jsonata_exp` rules only affect the opaque
   evaluator's environment and are not observable in this model.
 * `RED.util.evaluateNodeProperty` on a message property is modelled by
   `MsgPath`: either the payload lookup or a path whose evaluation throws.
 * The `regex` and `istype` operators depend on a regular-expression engine
   and on `JSON.parse`, which are outside the value model; no claim refers
   to them and they are omitted from the operator table.
 * Thrown exceptions are `Except.error`.  `node.error` calls are counted in
   `SwitchState.errors`, `node.warn` calls in `SwitchState.warns`; messages
   handed to the rule engine by the split-side release loop are recorded in
   the history field `SwitchState.releases`, and each `node.send` call
   appends its per-port array to `SwitchState.outputs`.
 * JavaScript objects used as keyed maps (`pendingIn`, `pendingOut`,
   `received`) are association lists; `RED.util.generateId` freshness is
   modelled by the `nextGenId` counter producing `GroupId.gen` tokens,
   disjoint from message-supplied `GroupId.user` tokens.
-/

/-- JavaScript primitive values as used by the switch node. -/
inductive JSVal where
  | undefined
  | null
  | bool (b : Bool)
  | num (n : Int)
  | str (s : String)
deriving DecidableEq

/-- Group identities: tokens arriving on messages (`user`) and tokens from
`RED.util.generateId` (`gen`). -/
inductive GroupId where
  | user (s : String)
  | gen (n : Nat)
deriving DecidableEq

/-- The `msg.parts` block.  `Option` fields model `hasOwnProperty`. -/
structure Parts where
  id : Option GroupId
  index : Option Int
  count : Option Int
deriving DecidableEq

/-- A message: the property under test plus the optional `parts` block. -/
structure Msg where
  payload : JSVal
  parts : Option Parts
deriving DecidableEq

/-- JS `Number(string)` restricted to optionally-signed decimal integers;
`none` is `NaN`.  The empty string converts to `0`. -/
def digitsVal : List Char → Nat → Option Nat
  | [], acc => some acc
  | c :: cs, acc =>
    if c.isDigit then digitsVal cs (acc * 10 + (c.toNat - 48)) else none

def strToNumber (s : String) : Option Int :=
  match s.toList with
  | [] => some 0
  | ch :: cs =>
    if ch = Char.ofNat 45 then
      match cs with
      | [] => none
      | _ :: _ => (digitsVal cs 0).map (fun n => -(n : Int))
    else (digitsVal (ch :: cs) 0).map (fun n => (n : Int))

/-- JS `Number(value)`; `none` is `NaN`. -/
def toNumber : JSVal → Option Int
  | .undefined => none
  | .null => some 0
  | .bool b => some (if b then 1 else 0)
  | .num n => some n
  | .str s => strToNumber s

/-- JS string coercion `(a + "")`. -/
def jsToString : JSVal → String
  | .undefined => "undefined"
  | .null => "null"
  | .bool b => if b then "true" else "false"
  | .num n => toString n
  | .str s => s

def boolToInt (b : Bool) : Int := if b then 1 else 0

/-- JS loose equality `==` on the primitive value domain. -/
def looseEq : JSVal → JSVal → Bool
  | .undefined, .undefined => true
  | .undefined, .null => true
  | .null, .undefined => true
  | .null, .null => true
  | .num a, .num b => a == b
  | .str a, .str b => a == b
  | .bool a, .bool b => a == b
  | .num a, .str s => match strToNumber s with | some b => a == b | none => false
  | .str s, .num b => match strToNumber s with | some a => a == b | none => false
  | .bool a, .num b => boolToInt a == b
  | .num a, .bool b => a == boolToInt b
  | .bool a, .str s => match strToNumber s with | some b => boolToInt a == b | none => false
  | .str s, .bool b => match strToNumber s with | some a => a == boolToInt b | none => false
  | _, _ => false

/-- JS `<`: lexicographic when both operands are strings, otherwise numeric
with `NaN` comparisons false. -/
def jsLt : JSVal → JSVal → Bool
  | .str a, .str b => decide (a < b)
  | a, b =>
    match toNumber a, toNumber b with
    | some x, some y => decide (x < y)
    | _, _ => false

def jsLe : JSVal → JSVal → Bool
  | .str a, .str b => decide (a ≤ b)
  | a, b =>
    match toNumber a, toNumber b with
    | some x, some y => decide (x ≤ y)
    | _, _ => false

def jsGt : JSVal → JSVal → Bool
  | .str a, .str b => decide (b < a)
  | a, b =>
    match toNumber a, toNumber b with
    | some x, some y => decide (y < x)
    | _, _ => false

def jsGe : JSVal → JSVal → Bool
  | .str a, .str b => decide (b ≤ a)
  | a, b =>
    match toNumber a, toNumber b with
    | some x, some y => decide (y ≤ x)
    | _, _ => false

def listStartsWith : List Char → List Char → Bool
  | [], _ => true
  | _ :: _, [] => false
  | a :: as, b :: bs => a == b && listStartsWith as bs

def listOccurs (needle : List Char) : List Char → Bool
  | [] => listStartsWith needle []
  | c :: cs => listStartsWith needle (c :: cs) || listOccurs needle cs

/-- JS `(a + "").indexOf(b) != -1`. -/
def strContains (hay needle : String) : Bool := listOccurs needle.toList hay.toList

/-- Rule kinds of the operator table.  `else` is a Lean keyword, embedded as
`fallback`; the boolean-literal checks `true`/`false` are `opTrue`/`opFalse`
and the null checks are `opNull`/`opNnull`.  `regex` and `istype` are
outside the value model (see the header comment). -/
inductive OpKind where
  | eq
  | neq
  | lt
  | lte
  | gt
  | gte
  | btwn
  | cont
  | opTrue
  | opFalse
  | opNull
  | opNnull
  | head
  | tail
  | index
  | jsonata_exp
  | fallback
deriving DecidableEq

/-- The operator table `operators[rule.t](test, v1, v2, rule.case, msg.parts)`.
`Except.error` models a thrown exception: the positional operators read
`parts.index` / `parts.count` and accessing a property of `undefined`
(`parts` absent) throws a `TypeError`. -/
def applyOp (t : OpKind) (a v1 v2 : JSVal) (_cf : Bool) (parts : Option Parts) :
    Except Unit Bool :=
  match t with
  | .eq => .ok (looseEq a v1)
  | .neq => .ok (!looseEq a v1)
  | .lt => .ok (jsLt a v1)
  | .lte => .ok (jsLe a v1)
  | .gt => .ok (jsGt a v1)
  | .gte => .ok (jsGe a v1)
  | .btwn => .ok (jsGe a v1 && jsLe a v2)
  | .cont => .ok (strContains (jsToString a) (jsToString v1))
  | .opTrue => .ok (a == .bool true)
  | .opFalse => .ok (a == .bool false)
  | .opNull => .ok (a == .undefined || a == .null)
  | .opNnull => .ok (!(a == .undefined || a == .null))
  | .head =>
    match parts with
    | none => .error ()
    | some p =>
      .ok (match p.index, toNumber v1 with
           | some i, some c => decide (i < c)
           | _, _ => false)
  | .tail =>
    match parts with
    | none => .error ()
    | some p =>
      .ok (match p.count, toNumber v1, p.index with
           | some n, some c, some i => decide (n - c ≤ i)
           | _, _, _ => false)
  | .index =>
    match parts with
    | none => .error ()
    | some p =>
      .ok (match toNumber v1, toNumber v2, p.index with
           | some mn, some mx, some i => decide (mn ≤ i) && decide (i ≤ mx)
           | _, _, _ => false)
  | .jsonata_exp => .ok (v1 == .bool true)
  | .fallback => .ok (a == .bool true)

/-- The opaque JSONata evaluator: an expression either yields a constant or
its evaluation throws. -/
inductive JsExpr where
  | const (v : JSVal)
  | fail
deriving DecidableEq

def evalJsonata (e : JsExpr) (msg : Msg) : Except Unit JSVal :=
  match e, msg with
  | .const v, _ => .ok v
  | .fail, _ => .error ()

/-- A message-property descriptor for `RED.util.evaluateNodeProperty`:
either the payload lookup or a path whose evaluation throws. -/
inductive MsgPath where
  | payload
  | badPath
deriving DecidableEq

def evalNodeProp (p : MsgPath) (msg : Msg) : Except Unit JSVal :=
  match p with
  | .payload => .ok msg.payload
  | .badPath => .error ()

/-- Operand source kinds (`rule.vt` / `rule.v2t` together with the stored
literal).  `jsonMarker`/`nullMarker` are the `vt === 'json'` / `'null'`
sentinel markers. -/
inductive ValSource where
  | num (n : Int)
  | str (s : String)
  | bool (b : Bool)
  | prev
  | jsonata (e : JsExpr)
  | jsonMarker
  | nullMarker
  | msgProp (p : MsgPath)
deriving DecidableEq

/-- One routing rule after configuration-time normalisation.  `caseFlag` is
`rule.case` (only read by the omitted `regex` operator). -/
structure Rule where
  t : OpKind
  v1 : ValSource
  v2 : Option ValSource
  caseFlag : Bool
deriving DecidableEq

/-- The property-under-test descriptor (`node.property`/`node.propertyType`). -/
inductive PropSource where
  | msgPath (p : MsgPath)
  | jsonata (e : JsExpr)
deriving DecidableEq

/-- Configuration consumed at construction.  `checkall` is
`node.checkall == "true"` (exhaustive mode); `maxKept` is the
`nodeMessageBufferMaxLength` setting, `0` meaning unbounded. -/
structure SwitchConfig where
  rules : List Rule
  checkall : Bool
  repair : Bool
  maxKept : Nat
  propSource : PropSource
deriving DecidableEq

/-- Operand-1 resolution (the inlined `getV1` block of `processMessage`).
`Except.error` is the `node.error` + `return` path taken when a JSONata
operand fails; all other lookup failures resolve to `undefined`. -/
def resolveV1 (prev : JSVal) (msg : Msg) (r : Rule) : Except Unit JSVal :=
  match r.v1 with
  | .prev => .ok prev
  | .jsonata e => evalJsonata e msg
  | .jsonMarker => .ok (.str "json")
  | .nullMarker => .ok (.str "null")
  | .num n => .ok (.num n)
  | .str s => .ok (.str s)
  | .bool b => .ok (.bool b)
  | .msgProp p => .ok (match evalNodeProp p msg with | .ok v => v | .error _ => .undefined)

/-- Operand-2 resolution (the inlined `getV2` block).  A missing operand
stays `undefined`; a JSONata failure is the `node.error` + `return` path;
`evaluateNodeProperty` failures are caught and resolve to `undefined` (the
marker sources go through `evaluateNodeProperty` with a type it cannot
evaluate, likewise caught). -/
def resolveV2 (prev : JSVal) (msg : Msg) (r : Rule) : Except Unit JSVal :=
  match r.v2 with
  | none => .ok .undefined
  | some .prev => .ok prev
  | some (.jsonata e) => evalJsonata e msg
  | some (.num n) => .ok (.num n)
  | some (.str s) => .ok (.str s)
  | some (.bool b) => .ok (.bool b)
  | some (.msgProp p) => .ok (match evalNodeProp p msg with | .ok v => v | .error _ => .undefined)
  | some .jsonMarker => .ok .undefined
  | some .nullMarker => .ok .undefined

/-- Property-under-test resolution; a failure propagates as a thrown
exception caught by the outer `try` of `processMessage`. -/
def resolveProp (cfg : SwitchConfig) (msg : Msg) : Except Unit JSVal :=
  match cfg.propSource with
  | .jsonata e => evalJsonata e msg
  | .msgPath p => evalNodeProp p msg

/-- Outcome of evaluating a single rule. -/
inductive StepOut where
  | errAbort
  | exn
  | step (entry : Option Msg) (ef : Bool) (matched : Bool)
deriving DecidableEq

/-- One iteration of the rule loop: resolve both operands, handle the
`else` flag, apply the operator.  `entry` is what is pushed onto `onward`
(`some msg` on match, `null` otherwise), `ef` the else-flag afterwards. -/
def ruleStep (prev prop : JSVal) (msg : Msg) (r : Rule) (ef : Bool) : StepOut :=
  match resolveV1 prev msg r with
  | .error _ => .errAbort
  | .ok v1 =>
    match resolveV2 prev msg r with
    | .error _ => .errAbort
    | .ok v2 =>
      let test := if r.t = .fallback then JSVal.bool ef else prop
      let ef1 := if r.t = .fallback then true else ef
      match applyOp r.t test v1 v2 r.caseFlag msg.parts with
      | .error _ => .exn
      | .ok true => .step (some msg) false true
      | .ok false => .step none ef1 false

/-- Outcome of the whole rule loop. -/
inductive RunOut where
  | done (out : List (Option Msg))
  | errAbort
  | exn
deriving DecidableEq

/-- The rule loop of `processMessage`: rules strictly in order, else-flag
initially true, short-circuit after a match when `checkall` is false. -/
def runRules (prev prop : JSVal) (msg : Msg) (checkall : Bool) :
    List Rule → Bool → RunOut
  | [], _ => .done []
  | r :: rest, ef =>
    match ruleStep prev prop msg r ef with
    | .errAbort => .errAbort
    | .exn => .exn
    | .step entry ef2 mt =>
      if mt && !checkall then .done [entry]
      else
        match runRules prev prop msg checkall rest ef2 with
        | .done out => .done (entry :: out)
        | .errAbort => .errAbort
        | .exn => .exn

/-- Outcome of one full evaluation pass over a message. -/
inductive EvalOut where
  | done (prop : JSVal) (out : List (Option Msg))
  | errAbort
  | exn
deriving DecidableEq

def evalMessage (cfg : SwitchConfig) (prev : JSVal) (msg : Msg) : EvalOut :=
  match resolveProp cfg msg with
  | .error _ => .exn
  | .ok prop =>
    match runRules prev prop msg cfg.checkall cfg.rules true with
    | .done out => .done prop out
    | .errAbort => .errAbort
    | .exn => .exn

/-- `msg.hasOwnProperty("parts") && parts.hasOwnProperty("id") &&
parts.hasOwnProperty("index")`. -/
def hasParts (msg : Msg) : Bool :=
  match msg.parts with
  | some p => p.id.isSome && p.index.isSome
  | none => false

/-- `needsCount`: repair mode, or any rule of kind `tail`/`jsonata_exp`. -/
def needsCount (cfg : SwitchConfig) : Bool :=
  cfg.repair || cfg.rules.any (fun r => r.t == .tail || r.t == .jsonata_exp)

/-- Split-side pending group (`pendingIn[id]`). -/
structure InGroup where
  count : Option Int
  msgs : List Msg
  seq_no : Nat
deriving DecidableEq

/-- Join-side pending group (`pendingOut[id]`). -/
structure OutGroup where
  onwards : List (List (Option Msg))
deriving DecidableEq

/-- One switch-node instance's mutable state, together with the observation
history (`outputs`, `errors`, `warns`, `releases`). -/
structure SwitchState where
  previousValue : JSVal
  pendingCount : Int
  pendingId : Nat
  pendingIn : List (GroupId × InGroup)
  pendingOut : List (GroupId × OutGroup)
  received : List (GroupId × Int)
  nextGenId : Nat
  outputs : List (List (Option Msg))
  errors : Nat
  warns : Nat
  releases : List Msg
deriving DecidableEq

def alookup {α : Type} (l : List (GroupId × α)) (k : GroupId) : Option α :=
  match l with
  | [] => none
  | (k1, v) :: rest => if k1 = k then some v else alookup rest k

def aupdate {α : Type} (l : List (GroupId × α)) (k : GroupId) (v : α) :
    List (GroupId × α) :=
  match l with
  | [] => [(k, v)]
  | (k1, v1) :: rest => if k1 = k then (k, v) :: rest else (k1, v1) :: aupdate rest k v

def aerase {α : Type} (l : List (GroupId × α)) (k : GroupId) : List (GroupId × α) :=
  l.filter (fun x => !(x.1 == k))

/-- `clearPending()`. -/
def clearPending (s : SwitchState) : SwitchState :=
  { s with pendingCount := 0, pendingId := 0, pendingIn := [], pendingOut := [],
           received := [] }

/-- `new Array(n)` built by a `for (j = 0; j < n; j++)` loop assigning `f j`. -/
def mapRangeAux {α : Type} (f : Nat → α) : Nat → Nat → List α
  | _, 0 => []
  | start, n + 1 => f start :: mapRangeAux f (start + 1) n

def mapRange {α : Type} (f : Nat → α) (n : Nat) : List α := mapRangeAux f 0 n

/-- Array access with a default (JS `a[j]`, default for out-of-range
`undefined`). -/
def nthD {α : Type} (l : List α) (j : Nat) (d : α) : α :=
  match l, j with
  | [], _ => d
  | a :: _, 0 => a
  | _ :: t, j + 1 => nthD t j d

/-- JS `onward[j] !== null`: true for a message and for `undefined`
(out-of-range access), false only for an explicit `null` entry. -/
def notNullAt (ow : List (Option Msg)) (j : Nat) : Bool :=
  match ow, j with
  | [], _ => true
  | e :: _, 0 => e.isSome
  | _ :: t, j + 1 => notNullAt t j

/-- The `counts[j]` accumulation loop of `sendGroup`. -/
def countNotNull (onwards : List (List (Option Msg))) (j : Nat) : Nat :=
  match onwards with
  | [] => 0
  | ow :: rest => (if notNullAt ow j then 1 else 0) + countNotNull rest j

def countsFor (onwards : List (List (Option Msg))) (pc : Nat) : List Nat :=
  mapRange (fun j => countNotNull onwards j) pc

/-- `RED.util.cloneMessage` followed by overwriting `parts.id`,
`parts.index`, `parts.count` on the clone.  Messages reaching `sendGroup`
always carry a `parts` block (they were routed through the join buffer under
`hasParts`), so the overwrite yields exactly this parts block. -/
def cloneWith (m : Msg) (gid : GroupId) (idx : Nat) (cnt : Nat) : Msg :=
  { m with parts := some { id := some gid, index := some (idx : Int), count := some (cnt : Int) } }

/-- The per-fragment emission loop of `sendGroup`: one burst (`node.send`)
per original fragment position, with the per-port running `indexes`. -/
def sendBursts (ids : List GroupId) (counts : List Nat) (pc : Nat) :
    List (List (Option Msg)) → List Nat → List (List (Option Msg))
  | [], _ => []
  | ow :: rest, idxs =>
    let burst := mapRange (fun j =>
      (nthD ow j none).map (fun m =>
        cloneWith m (nthD ids j (GroupId.gen 0)) (nthD idxs j 0) (nthD counts j 0))) pc
    let idxs2 := mapRange (fun j =>
      nthD idxs j 0 + (if (nthD ow j none).isSome then 1 else 0)) pc
    burst :: sendBursts ids counts pc rest idxs2

/-- All bursts emitted by `sendGroup(onwards, port_count)`. -/
def sendGroupBursts (s : SwitchState) (onwards : List (List (Option Msg)))
    (pc : Nat) : List (List (Option Msg)) :=
  sendBursts (mapRange (fun k => GroupId.gen (s.nextGenId + k)) pc)
    (countsFor onwards pc) pc onwards (mapRange (fun _ => 0) pc)

/-- `sendGroup`: generate one fresh id per port, count per-port entries,
emit one burst per fragment position. -/
def sendGroup (s : SwitchState) (onwards : List (List (Option Msg))) (pc : Nat) :
    SwitchState :=
  { s with nextGenId := s.nextGenId + pc,
           outputs := s.outputs ++ sendGroupBursts s onwards pc }

/-- `sendGroupMessages(onward, msg)`: join-side buffering of one routing
decision, group completion check, and the trailing overflow check.  The
caller guarantees `hasParts msg` (repair mode), so the unreachable
`parts`/`id`-absent fallthroughs return the state unchanged. -/
def sendGroupMessages (cfg : SwitchConfig) (s : SwitchState)
    (onward : List (Option Msg)) (msg : Msg) : SwitchState :=
  match msg.parts with
  | none => s
  | some p =>
    match p.id with
    | none => s
    | some gid =>
      let rcv : Int := (alookup s.received gid).getD 0 + 1
      let s1 := { s with received := aupdate s.received gid rcv }
      let send_ok : Bool := match p.count with | some c => rcv == c | none => false
      let g : OutGroup := (alookup s1.pendingOut gid).getD ⟨[]⟩
      let onwards := g.onwards ++ [onward]
      let s2 := { s1 with pendingOut := aupdate s1.pendingOut gid ⟨onwards⟩,
                          pendingCount := s1.pendingCount + 1 }
      let s3 :=
        if send_ok then
          let s4 := sendGroup s2 onwards onward.length
          { s4 with pendingCount := s4.pendingCount - (onward.length : Int),
                    pendingOut := aerase s4.pendingOut gid,
                    received := aerase s4.received gid }
        else s2
      if cfg.maxKept > 0 && decide (s3.pendingCount > (cfg.maxKept : Int)) then
        clearPending { s3 with errors := s3.errors + 1 }
      else s3

/-- The body of `processMessage` after the split-side buffering check: one
evaluation pass, then forwarding (`node.send` or `sendGroupMessages`).  An
`errAbort` is the `node.error` + `return` path, an `exn` the outer
`catch (err) { node.warn(err) }`. -/
def processMessageCore (cfg : SwitchConfig) (s : SwitchState) (msg : Msg) :
    SwitchState :=
  match evalMessage cfg s.previousValue msg with
  | .errAbort => { s with errors := s.errors + 1 }
  | .exn => { s with warns := s.warns + 1 }
  | .done prop onward =>
    let s1 := { s with previousValue := prop }
    if !cfg.repair || !hasParts msg then { s1 with outputs := s1.outputs ++ [onward] }
    else sendGroupMessages cfg s1 onward msg

/-- `addMessageToGroup(id, msg, parts)`: append the fragment, bump the
counter, run the overflow check (which may `clearPending`), then record a
declared `count`.  Returns the (possibly detached) group object alongside
the state: after an overflow the group survives only as the local variable,
exactly as in the source. -/
def addMessageToGroup (cfg : SwitchConfig) (s : SwitchState) (gid : GroupId)
    (msg : Msg) (p : Parts) : SwitchState × InGroup :=
  let found := alookup s.pendingIn gid
  let s0 := match found with
    | some _ => s
    | none => { s with pendingIn := aupdate s.pendingIn gid ⟨none, [], s.pendingId⟩,
                       pendingId := s.pendingId + 1 }
  let g0 : InGroup := match found with
    | some g => g
    | none => ⟨none, [], s.pendingId⟩
  let g1 : InGroup := { g0 with msgs := g0.msgs ++ [msg] }
  let s1 := { s0 with pendingIn := aupdate s0.pendingIn gid g1,
                      pendingCount := s0.pendingCount + 1 }
  let overflow := cfg.maxKept > 0 && decide (s1.pendingCount > (cfg.maxKept : Int))
  let s2 := if overflow then clearPending { s1 with errors := s1.errors + 1 } else s1
  let g2 : InGroup := match p.count with
    | some c => { g1 with count := some c }
    | none => g1
  let s3 := if overflow then s2 else { s2 with pendingIn := aupdate s2.pendingIn gid g2 }
  (s3, g2)

/-- `msg.parts.count = count` on a buffered fragment before release. -/
def setCount (m : Msg) (c : Int) : Msg :=
  { m with parts := m.parts.map (fun p => { p with count := some c }) }

/-- The release loop of `addMessageToPending`: each buffered fragment gets
its `parts.count` overwritten and is handed to `processMessage(msg, false)`
(recorded in `releases`). -/
def releaseLoop (cfg : SwitchConfig) (c : Int) :
    SwitchState → List Msg → SwitchState
  | s, [] => s
  | s, m :: rest =>
    let m1 := setCount m c
    let s1 := { s with releases := s.releases ++ [m1] }
    releaseLoop cfg c (processMessageCore cfg s1 m1) rest

/-- `addMessageToPending(msg)`: true when the message carries `parts.id` and
`parts.index` and was buffered (and possibly released); false otherwise. -/
def addMessageToPending (cfg : SwitchConfig) (s : SwitchState) (msg : Msg) :
    SwitchState × Bool :=
  match msg.parts with
  | none => (s, false)
  | some p =>
    match p.id, p.index with
    | some gid, some _ =>
      let sg := addMessageToGroup cfg s gid msg p
      let g := sg.2
      match g.count with
      | some c =>
        if c == (g.msgs.length : Int) then
          let s2 := releaseLoop cfg c sg.1 g.msgs
          ({ s2 with pendingCount := s2.pendingCount - (g.msgs.length : Int),
                     pendingIn := aerase s2.pendingIn gid }, true)
        else (sg.1, true)
      | none => (sg.1, true)
    | _, _ => (s, false)

/-- `processMessage(msg, checkParts)`. -/
def processMessage (cfg : SwitchConfig) (s : SwitchState) (msg : Msg)
    (checkParts : Bool) : SwitchState :=
  if needsCount cfg && checkParts && hasParts msg then
    match addMessageToPending cfg s msg with
    | (s2, true) => s2
    | (s2, false) => processMessageCore cfg s2 msg
  else processMessageCore cfg s msg

/-- Freshly constructed node state: `previousValue = null`, empty buffers. -/
def initState : SwitchState :=
  ⟨JSVal.null, 0, 0, [], [], [], 0, [], 0, 0, []⟩

/-- Successive `input` events on one instance. -/
def runInputs (cfg : SwitchConfig) (s : SwitchState) : List Msg → SwitchState
  | [] => s
  | m :: rest => runInputs cfg (processMessage cfg s m true) rest

/-- Messages collected at port `j`, in original fragment order, from a list
of per-port decision arrays (or from a list of emitted bursts). -/
def portMsgs (onwards : List (List (Option Msg))) (j : Nat) : List Msg :=
  match onwards with
  | [] => []
  | ow :: rest =>
    match nthD ow j none with
    | some m => m :: portMsgs rest j
    | none => portMsgs rest j

/-- A fresh sub-sequence: the given messages re-identified with one group
id, consecutive indices starting at `k`, and the per-port total. -/
def renumber (gid : GroupId) (total : Nat) : Nat → List Msg → List Msg
  | _, [] => []
  | k, m :: rest => cloneWith m gid k total :: renumber gid total (k + 1) rest

/-- How one evaluated rule transforms the else-flag: an `else` rule leaves
it true exactly when the rule itself did not match, any other rule clears
it on a match and keeps it otherwise. -/
def flagStep (f : Bool) (x : OpKind × Option Msg) : Bool :=
  if x.1 = .fallback then x.2.isNone else (f && x.2.isNone)

def flagFold (ef : Bool) (l : List (OpKind × Option Msg)) : Bool :=
  l.foldl flagStep ef

/-- The suffix of an evaluation trace starting at the most recent `else`
rule (the whole trace when it contains none). -/
def sinceLastFallback (l : List (OpKind × Option Msg)) :
    List (OpKind × Option Msg) :=
  l.foldl (fun acc x => if x.1 = .fallback then [x] else acc ++ [x]) []

/-- No rule at or after the most recent earlier `else` rule (from the start
of the pass when there is none) matched. -/
def noPriorMatchB (rules : List Rule) (out : List (Option Msg)) : Bool :=
  (sinceLastFallback ((rules.map Rule.t).zip out)).all (fun x => x.2.isNone)

/-- Concrete rules and inputs used by the claim instances below. -/
def ruleTrue : Rule := ⟨.opTrue, .str "", none, false⟩

def ruleOtherwise : Rule := ⟨.fallback, .str "", none, false⟩

def ruleEqStr (s : String) : Rule := ⟨.eq, .str s, none, false⟩

def rulePrev : Rule := ⟨.eq, .prev, none, false⟩

def ruleHead1 : Rule := ⟨.head, .num 1, none, false⟩

def ruleEqJfail : Rule := ⟨.eq, .str "a", some (.jsonata .fail), false⟩

def msgTrue : Msg := ⟨.bool true, none⟩

def msgStrA : Msg := ⟨.str "a", none⟩

def msgNum5 : Msg := ⟨.num 5, none⟩

def cfgC1 : SwitchConfig := ⟨[ruleTrue], true, true, 1, .msgPath .payload⟩

def fragC1a : Msg := ⟨.bool true, some ⟨some (.user "g"), some 0, none⟩⟩

def fragC1b : Msg := ⟨.bool true, some ⟨some (.user "g"), some 1, some 2⟩⟩

def cfgC2 : SwitchConfig :=
  ⟨[ruleTrue, ruleOtherwise, ruleOtherwise], true, false, 0, .msgPath .payload⟩

def cfgC3 : SwitchConfig := ⟨[ruleEqJfail], true, false, 0, .msgPath .payload⟩

def cfgC4 : SwitchConfig := ⟨[ruleHead1], true, false, 0, .msgPath .payload⟩

def cfgC5 : SwitchConfig := ⟨[ruleTrue], true, false, 0, .msgPath .payload⟩

def msgF2 : Msg := ⟨.num 2, some ⟨some (.user "g"), some 2, some 3⟩⟩

def msgF0 : Msg := ⟨.num 0, some ⟨some (.user "g"), some 0, none⟩⟩

def msgF1 : Msg := ⟨.num 1, some ⟨some (.user "g"), some 1, none⟩⟩

def stateC5 : SwitchState :=
  (addMessageToPending cfgC5 (addMessageToPending cfgC5 initState msgF2).1 msgF0).1

def cfgC6 : SwitchConfig :=
  ⟨[ruleEqStr "a", ruleEqStr "b"], false, true, 0, .msgPath .payload⟩

def fragC6a : Msg := ⟨.str "a", some ⟨some (.user "g"), some 0, some 2⟩⟩

def fragC6b : Msg := ⟨.str "b", some ⟨some (.user "g"), some 1, none⟩⟩

def msgPortA : Msg := ⟨.str "A", some ⟨some (.user "h"), some 0, some 2⟩⟩

def msgPortB : Msg := ⟨.str "B", some ⟨some (.user "h"), some 1, some 2⟩⟩

def owPair : List (List (Option Msg)) := [[some msgPortA, none], [none, some msgPortB]]

def cfgC7 : SwitchConfig := ⟨[ruleTrue, ruleTrue], false, false, 0, .msgPath .payload⟩

def cfgC8 : SwitchConfig := ⟨[ruleTrue], true, false, 0, .jsonata .fail⟩

def cfgC9 : SwitchConfig := ⟨[ruleTrue], true, true, 0, .msgPath .payload⟩

def fragC9a : Msg := ⟨.bool true, some ⟨some (.user "g"), some 0, some 2⟩⟩

def fragC9b : Msg := ⟨.bool true, some ⟨some (.user "g"), some 1, none⟩⟩

theorem alookup_aerase {α : Type} (l : List (GroupId × α)) (k : GroupId) :
    alookup (aerase l k) k = none := by
  induction l with
  | nil => rfl
  | cons x rest ih =>
    by_cases h : x.1 = k
    · simpa [aerase, List.filter_cons, h] using ih
    · simpa [aerase, List.filter_cons, h, alookup] using ih

theorem sendGroup_previousValue (s : SwitchState) (onwards : List (List (Option Msg)))
    (pc : Nat) : (sendGroup s onwards pc).previousValue = s.previousValue := rfl

theorem sendGroup_releases (s : SwitchState) (onwards : List (List (Option Msg)))
    (pc : Nat) : (sendGroup s onwards pc).releases = s.releases := rfl

theorem sendGroupMessages_previousValue (cfg : SwitchConfig) (s : SwitchState)
    (onward : List (Option Msg)) (msg : Msg) :
    (sendGroupMessages cfg s onward msg).previousValue = s.previousValue := by
  cases hmp : msg.parts with
  | none => simp [sendGroupMessages, hmp]
  | some p =>
    cases hid : p.id with
    | none => simp [sendGroupMessages, hmp, hid]
    | some gid =>
      simp [sendGroupMessages, hmp, hid, apply_ite (SwitchState.previousValue),
        clearPending, sendGroup]

theorem sendGroupMessages_releases (cfg : SwitchConfig) (s : SwitchState)
    (onward : List (Option Msg)) (msg : Msg) :
    (sendGroupMessages cfg s onward msg).releases = s.releases := by
  cases hmp : msg.parts with
  | none => simp [sendGroupMessages, hmp]
  | some p =>
    cases hid : p.id with
    | none => simp [sendGroupMessages, hmp, hid]
    | some gid =>
      simp [sendGroupMessages, hmp, hid, apply_ite (SwitchState.releases),
        clearPending, sendGroup]

theorem processMessageCore_releases (cfg : SwitchConfig) (s : SwitchState) (msg : Msg) :
    (processMessageCore cfg s msg).releases = s.releases := by
  cases h : evalMessage cfg s.previousValue msg with
  | errAbort => simp [processMessageCore, h]
  | exn => simp [processMessageCore, h]
  | done prop onward =>
    simp only [processMessageCore, h]
    split
    · rfl
    · exact sendGroupMessages_releases cfg _ onward msg

theorem releaseLoop_releases (cfg : SwitchConfig) (c : Int) :
    ∀ (ms : List Msg) (s : SwitchState),
      (releaseLoop cfg c s ms).releases = s.releases ++ ms.map (fun m => setCount m c) := by
  intro ms
  induction ms with
  | nil => intro s; simp [releaseLoop]
  | cons m rest ih =>
    intro s
    rw [releaseLoop]
    rw [ih, processMessageCore_releases]
    simp

theorem addMessageToGroup_releases (cfg : SwitchConfig) (s : SwitchState)
    (gid : GroupId) (msg : Msg) (p : Parts) :
    (addMessageToGroup cfg s gid msg p).1.releases = s.releases := by
  cases hf : alookup s.pendingIn gid <;> cases hc : p.count <;>
    simp [addMessageToGroup, hf, hc, apply_ite (SwitchState.releases), clearPending]

/-- Claim C1 (code bug).  With `maxKept = 1`, buffering fragment `g/0` and
then fragment `g/1` (declaring `count = 2`) exceeds the bound: the overflow
error is reported and the buffers are cleared, but because the triggering
fragment also completes its group, `addMessageToPending` still releases both
fragments (the stale group object) into the rule engine, their output is
forwarded, and the global counter is left at `-1` — the triggering
message's processing is not abandoned and the next message does not start
from a zero counter, contradicting the claim. -/
theorem c1_overflow_release_bug :
    (runInputs cfgC1 initState [fragC1a, fragC1b]).errors = 1 ∧
    (runInputs cfgC1 initState [fragC1a, fragC1b]).releases =
      [setCount fragC1a 2, setCount fragC1b 2] ∧
    (runInputs cfgC1 initState [fragC1a, fragC1b]).outputs =
      [[some (cloneWith (setCount fragC1a 2) (.gen 0) 0 2)],
       [some (cloneWith (setCount fragC1b 2) (.gen 0) 1 2)]] ∧
    (runInputs cfgC1 initState [fragC1a, fragC1b]).pendingCount = -1 := by
  decide

/-- Claim C9 (code bug).  Repair mode, one output port, a two-fragment
group: after the group completes, both pending structures are empty but
`pendingCount` is `1`, because `sendGroupMessages` subtracts the port count
(`onward.length`, here `1`) instead of the number of buffered decision
arrays (`onwards.length`, here `2`).  The claimed counter invariant fails. -/
theorem c9_pending_count_bug :
    (runInputs cfgC9 initState [fragC9a, fragC9b]).pendingCount = 1 ∧
    (runInputs cfgC9 initState [fragC9a, fragC9b]).pendingIn = [] ∧
    (runInputs cfgC9 initState [fragC9a, fragC9b]).pendingOut = [] ∧
    (runInputs cfgC9 initState [fragC9a, fragC9b]).errors = 0 := by
  decide

/-- Claim C2, counterexample.  Rules `[true, else, else]` in exhaustive
mode on a message whose property is `true`: rule 0 matches, yet the `else`
rule at position 2 also matches (port 2 is non-absent), because the
non-matching `else` at position 1 reset the tracker to true.  This refutes
"the else rule matches iff no earlier rule in the same evaluation pass
matched". -/
theorem c2_counterexample :
    (processMessage cfgC2 initState msgTrue true).outputs =
      [[some msgTrue, none, some msgTrue]] := by
  decide

/-- Claim C3, counterexample.  A rule whose operand-2 is a failing JSONata
expression: the claim says operand-2 resolves to `undefined` and the rule
yields an ordinary non-match (output `[[none]]`), but the code reports an
error and abandons the message — no per-port array is emitted at all. -/
theorem c3_counterexample :
    (processMessage cfgC3 initState msgStrA true).outputs = [] ∧
    (processMessage cfgC3 initState msgStrA true).errors = 1 := by
  decide

/-- Claim C4, counterexample.  A `head` rule evaluated on a message with no
`parts` block: the claim says the rule never matches and the port receives
the absence marker (output `[[none]]`), but reading `parts.index` of
`undefined` throws, so the whole message is dropped with a warning and no
array is emitted. -/
theorem c4_counterexample :
    (processMessage cfgC4 initState msgNum5 true).outputs = [] ∧
    (processMessage cfgC4 initState msgNum5 true).warns = 1 := by
  decide

/-- Claim C6, counterexample.  Repair mode with first-match semantics:
fragment `"a"` matches only port 0 (its decision array is truncated to
length 1), fragment `"b"` matches only port 1.  The claim demands port 1's
fresh sub-sequence to carry `count = 1` (one fragment was routed there),
but the emitted message carries `count = 2`: the `counts[j]` loop counts
the out-of-range (`undefined`) entry of the truncated array as non-null. -/
theorem c6_counterexample :
    (runInputs cfgC6 initState [fragC6a, fragC6b]).outputs =
      [[some (cloneWith (setCount fragC6a 2) (.gen 0) 0 1), none],
       [none, some (cloneWith (setCount fragC6b 2) (.gen 1) 0 2)]] := by
  decide

/-- Claim C7, counterexample.  First-match mode with two rules that both
match: the emitted array is `[some msg]` of length 1 — the port after the
first matching rule receives no slot at all, so the array does not cover
all N = 2 ports as the claim states. -/
theorem c7_counterexample :
    (processMessage cfgC7 initState msgTrue true).outputs = [[some msgTrue]] ∧
    cfgC7.rules.length = 2 := by
  decide

/-- Claim C8 (confirmed).  Whenever the evaluation pass for a message ends
in the `node.error`-and-return path or in a thrown exception, routing is
aborted atomically: no per-port array is emitted (outputs and the join
buffer are untouched), `previousValue` and the split buffer and the global
counter are unchanged, and exactly one failure is reported; the instance
state remains usable. -/
theorem c8_eval_error_atomic (cfg : SwitchConfig) (s : SwitchState) (msg : Msg)
    (h : evalMessage cfg s.previousValue msg = .errAbort ∨
         evalMessage cfg s.previousValue msg = .exn) :
    (processMessageCore cfg s msg).outputs = s.outputs ∧
    (processMessageCore cfg s msg).previousValue = s.previousValue ∧
    (processMessageCore cfg s msg).pendingIn = s.pendingIn ∧
    (processMessageCore cfg s msg).pendingOut = s.pendingOut ∧
    (processMessageCore cfg s msg).pendingCount = s.pendingCount ∧
    (processMessageCore cfg s msg).errors + (processMessageCore cfg s msg).warns =
      s.errors + s.warns + 1 := by
  rcases h with h | h <;> simp [processMessageCore, h] <;> omega

/-- Witness for C8: a router whose property descriptor is a failing JSONata
expression throws during evaluation; the message is dropped atomically. -/
theorem c8_eval_error_atomic_witness :
    evalMessage cfgC8 initState.previousValue msgStrA = .exn ∧
    (processMessageCore cfgC8 initState msgStrA).outputs = initState.outputs ∧
    (processMessageCore cfgC8 initState msgStrA).previousValue = initState.previousValue ∧
    (processMessageCore cfgC8 initState msgStrA).errors +
      (processMessageCore cfgC8 initState msgStrA).warns =
      initState.errors + initState.warns + 1 := by
  refine ⟨by decide, ?_⟩
  have h := c8_eval_error_atomic cfgC8 initState msgStrA (Or.inr (by decide))
  exact ⟨h.1, h.2.1, h.2.2.2.2.2⟩

/-- Claim C10 (confirmed).  A freshly constructed instance has
`previousValue = null` (which is distinct from `undefined`), every operand
whose source is the "previous value" marker resolves to exactly the current
`previousValue` slot (hence `null` for the first message), an evaluation
pass that ends in an error or exception leaves `previousValue` unchanged,
and a pass that completes sets it to the resolved property under test. -/
theorem c10_previous_value :
    initState.previousValue = JSVal.null ∧
    JSVal.null ≠ JSVal.undefined ∧
    (∀ (prev : JSVal) (msg : Msg) (r : Rule), r.v1 = .prev →
      resolveV1 prev msg r = .ok prev) ∧
    (∀ (prev : JSVal) (msg : Msg) (r : Rule), r.v2 = some .prev →
      resolveV2 prev msg r = .ok prev) ∧
    (∀ (cfg : SwitchConfig) (s : SwitchState) (msg : Msg),
      (evalMessage cfg s.previousValue msg = .errAbort ∨
       evalMessage cfg s.previousValue msg = .exn) →
      (processMessageCore cfg s msg).previousValue = s.previousValue) ∧
    (∀ (cfg : SwitchConfig) (s : SwitchState) (msg : Msg) (prop : JSVal)
       (out : List (Option Msg)),
      evalMessage cfg s.previousValue msg = .done prop out →
      (processMessageCore cfg s msg).previousValue = prop) := by
  refine ⟨rfl, by decide, ?_, ?_, ?_, ?_⟩
  · intro prev msg r h; simp [resolveV1, h]
  · intro prev msg r h; simp [resolveV2, h]
  · intro cfg s msg h
    rcases h with h | h <;> simp [processMessageCore, h]
  · intro cfg s msg prop out h
    simp only [processMessageCore, h]
    split
    · rfl
    · exact sendGroupMessages_previousValue cfg _ out msg

/-- Witness for C10: a rule reading the "previous value" marker resolves to
the initial `null` slot on a fresh instance. -/
theorem c10_previous_value_witness :
    rulePrev.v1 = .prev ∧
    resolveV1 initState.previousValue msgTrue rulePrev = .ok JSVal.null := by
  exact ⟨rfl, c10_previous_value.2.2.1 initState.previousValue msgTrue rulePrev rfl⟩

/-- Claim C3, amended (corrected).  When a rule's operand-2 source is a
dynamic (JSONata) expression whose evaluation fails, the rule pass is
aborted through the `node.error`-and-return path exactly as for operand-1
— it does not resolve to `undefined` — and an error-aborted pass leaves
the state unchanged apart from the error report: no per-port array is
emitted and `previousValue` keeps its value.  (Operand-2 message-property
lookup failures, by contrast, are caught and resolve to `undefined`.) -/
theorem c3_v2_failure_aborts :
    (∀ (prev prop : JSVal) (msg : Msg) (r : Rule) (ef : Bool) (v1 : JSVal),
      resolveV1 prev msg r = .ok v1 → r.v2 = some (.jsonata .fail) →
      ruleStep prev prop msg r ef = .errAbort) ∧
    (∀ (prev : JSVal) (msg : Msg) (r : Rule) (p : MsgPath),
      r.v2 = some (.msgProp p) →
      resolveV2 prev msg r =
        .ok (match evalNodeProp p msg with | .ok v => v | .error _ => .undefined)) ∧
    (∀ (cfg : SwitchConfig) (s : SwitchState) (msg : Msg),
      evalMessage cfg s.previousValue msg = .errAbort →
      processMessageCore cfg s msg = { s with errors := s.errors + 1 }) := by
  refine ⟨?_, ?_, ?_⟩
  · intro prev prop msg r ef v1 h1 h2
    unfold ruleStep
    rw [h1]
    have hv2 : resolveV2 prev msg r = .error () := by
      simp [resolveV2, h2, evalJsonata]
    rw [hv2]
  · intro prev msg r p h; simp [resolveV2, h]
  · intro cfg s msg h; simp [processMessageCore, h]

/-- Witness for C3: the concrete failing-operand-2 rule aborts the step and
the error-aborted pass only bumps the error count. -/
theorem c3_v2_failure_aborts_witness :
    resolveV1 JSVal.null msgStrA ruleEqJfail = .ok (.str "a") ∧
    ruleEqJfail.v2 = some (.jsonata .fail) ∧
    ruleStep JSVal.null (JSVal.str "x") msgStrA ruleEqJfail true = .errAbort ∧
    processMessageCore cfgC3 initState msgStrA = { initState with errors := 1 } := by
  refine ⟨rfl, rfl, ?_, ?_⟩
  · exact c3_v2_failure_aborts.1 JSVal.null (JSVal.str "x") msgStrA ruleEqJfail true
      (.str "a") rfl rfl
  · exact c3_v2_failure_aborts.2.2 cfgC3 initState msgStrA (by decide)

theorem ruleStep_fallback_char (prev prop : JSVal) (msg : Msg) (r : Rule) (ef : Bool)
    (entry : Option Msg) (ef2 mt : Bool) (ht : r.t = .fallback)
    (h : ruleStep prev prop msg r ef = .step entry ef2 mt) :
    entry.isSome = ef ∧ ef2 = !entry.isSome := by
  cases h1 : resolveV1 prev msg r with
  | error e => simp [ruleStep, h1] at h
  | ok v1 =>
    cases h2 : resolveV2 prev msg r with
    | error e => simp [ruleStep, h1, h2] at h
    | ok v2 =>
      cases ef
      · have hbe : (JSVal.bool false == JSVal.bool true) = false := rfl
        simp [ruleStep, h1, h2, ht, applyOp, hbe] at h
        obtain ⟨he, hef, hmt⟩ := h
        subst he
        subst hef
        simp
      · simp [ruleStep, h1, h2, ht, applyOp] at h
        obtain ⟨he, hef, hmt⟩ := h
        subst he
        subst hef
        simp

theorem ruleStep_flag (prev prop : JSVal) (msg : Msg) (r : Rule) (ef : Bool)
    (entry : Option Msg) (ef2 mt : Bool)
    (h : ruleStep prev prop msg r ef = .step entry ef2 mt) :
    ef2 = flagStep ef (r.t, entry) := by
  cases h1 : resolveV1 prev msg r with
  | error e => simp [ruleStep, h1] at h
  | ok v1 =>
    cases h2 : resolveV2 prev msg r with
    | error e => simp [ruleStep, h1, h2] at h
    | ok v2 =>
      cases h3 : applyOp r.t (if r.t = .fallback then JSVal.bool ef else prop) v1 v2
          r.caseFlag msg.parts with
      | error e => simp [ruleStep, h1, h2, h3] at h
      | ok b =>
        cases b <;> simp [ruleStep, h1, h2, h3] at h <;>
          obtain ⟨he, hef, hmt⟩ := h <;> subst he <;> subst hef <;>
          by_cases hf : r.t = .fallback <;> simp [flagStep, hf]

theorem ruleStep_entry (prev prop : JSVal) (msg : Msg) (r : Rule) (ef : Bool)
    (entry : Option Msg) (ef2 mt : Bool)
    (h : ruleStep prev prop msg r ef = .step entry ef2 mt) :
    entry = if mt then some msg else none := by
  cases h1 : resolveV1 prev msg r with
  | error e => simp [ruleStep, h1] at h
  | ok v1 =>
    cases h2 : resolveV2 prev msg r with
    | error e => simp [ruleStep, h1, h2] at h
    | ok v2 =>
      cases h3 : applyOp r.t (if r.t = .fallback then JSVal.bool ef else prop) v1 v2
          r.caseFlag msg.parts with
      | error e => simp [ruleStep, h1, h2, h3] at h
      | ok b =>
        cases b <;> simp [ruleStep, h1, h2, h3] at h <;>
          obtain ⟨he, hef, hmt⟩ := h <;> subst he <;> subst hmt <;> simp

theorem runRules_cons_done (prev prop : JSVal) (msg : Msg) (ca : Bool) (r : Rule)
    (rest : List Rule) (ef : Bool) (out : List (Option Msg))
    (h : runRules prev prop msg ca (r :: rest) ef = .done out) :
    ∃ entry ef2 mt, ruleStep prev prop msg r ef = .step entry ef2 mt ∧
      (((mt && !ca) = true ∧ out = [entry]) ∨
       ((mt && !ca) = false ∧
        ∃ out2, runRules prev prop msg ca rest ef2 = .done out2 ∧ out = entry :: out2)) := by
  cases hs : ruleStep prev prop msg r ef with
  | errAbort => simp [runRules, hs] at h
  | exn => simp [runRules, hs] at h
  | step entry ef2 mt =>
    refine ⟨entry, ef2, mt, rfl, ?_⟩
    cases hb : (mt && !ca) with
    | true =>
      left
      refine ⟨rfl, ?_⟩
      simp [runRules, hs, hb] at h
      exact h.symm
    | false =>
      right
      refine ⟨rfl, ?_⟩
      simp only [runRules, hs, hb, Bool.false_eq_true, if_false] at h
      cases hr : runRules prev prop msg ca rest ef2 with
      | done out2 =>
        rw [hr] at h
        simp at h
        exact ⟨out2, rfl, h.symm⟩
      | errAbort => rw [hr] at h; simp at h
      | exn => rw [hr] at h; simp at h

theorem runRules_exh_length (prev prop : JSVal) (msg : Msg) :
    ∀ (rules : List Rule) (ef : Bool) (out : List (Option Msg)),
      runRules prev prop msg true rules ef = .done out → out.length = rules.length := by
  intro rules
  induction rules with
  | nil =>
    intro ef out h
    have : out = [] := by simpa [runRules] using h.symm
    simp [this]
  | cons r rest ih =>
    intro ef out h
    obtain ⟨entry, ef2, mt, hs, hcase⟩ := runRules_cons_done prev prop msg true r rest ef out h
    rcases hcase with ⟨hb, _⟩ | ⟨_, out2, hr, hout⟩
    · simp at hb
    · subst hout
      simp [ih ef2 out2 hr]

theorem runRules_flag_char (prev prop : JSVal) (msg : Msg) :
    ∀ (rules : List Rule) (ef : Bool) (out : List (Option Msg)),
      runRules prev prop msg true rules ef = .done out →
      ∀ (i : Nat) (r : Rule) (e : Option Msg),
        rules.get? i = some r → r.t = .fallback → out.get? i = some e →
        e.isSome = flagFold ef (((rules.take i).map Rule.t).zip (out.take i)) := by
  intro rules
  induction rules with
  | nil => intro ef out h i r e hri; simp at hri
  | cons r0 rest ih =>
    intro ef out h i r e hri hrt hei
    obtain ⟨entry, ef2, mt, hs, hcase⟩ := runRules_cons_done prev prop msg true r0 rest ef out h
    rcases hcase with ⟨hb, _⟩ | ⟨_, out2, hr, hout⟩
    · simp at hb
    · subst hout
      cases i with
      | zero =>
        simp at hri hei
        subst hri
        subst hei
        have hc := ruleStep_fallback_char prev prop msg r0 ef entry ef2 mt hrt hs
        simpa [flagFold] using hc.1
      | succ i =>
        simp only [List.get?_cons_succ] at hri hei
        have hmain := ih ef2 out2 hr i r e hri hrt hei
        have hflag := ruleStep_flag prev prop msg r0 ef entry ef2 mt hs
        simp only [List.take_succ_cons, List.map_cons, List.zip_cons_cons, flagFold,
          List.foldl_cons] at hmain ⊢
        rw [hflag] at hmain
        exact hmain

theorem flagFold_since (l : List (OpKind × Option Msg)) :
    flagFold true l = (sinceLastFallback l).all (fun x => x.2.isNone) := by
  induction l using List.reverseRecOn with
  | nil => rfl
  | append_singleton l x ih =>
    have h1 : flagFold true (l ++ [x]) = flagStep (flagFold true l) x := by
      simp [flagFold, List.foldl_append]
    have h2 : sinceLastFallback (l ++ [x]) =
        if x.1 = .fallback then [x] else sinceLastFallback l ++ [x] := by
      simp [sinceLastFallback, List.foldl_append]
    rw [h1, h2]
    by_cases hx : x.1 = .fallback
    · simp [flagStep, hx]
    · simp [flagStep, hx, List.all_append, ih]

/-- Claim C2, amended (corrected).  In the code an `else` rule's test input
is the tracker, the tracker is reset to true before the operator runs, and
a matching rule (the `else` included) then clears it.  Hence: immediately
after an `else` rule is evaluated the tracker is true iff that `else` rule
itself did not match, and in a complete exhaustive pass an `else` rule
matches iff no rule at or after the most recent earlier `else` rule (from
the start of the pass when there is none) matched — not "iff no earlier
rule in the pass matched". -/
theorem c2_else_corrected :
    (∀ (prev prop : JSVal) (msg : Msg) (r : Rule) (ef : Bool) (entry : Option Msg)
       (ef2 mt : Bool),
      r.t = .fallback → ruleStep prev prop msg r ef = .step entry ef2 mt →
      entry.isSome = ef ∧ ef2 = !entry.isSome) ∧
    (∀ (prev prop : JSVal) (msg : Msg) (rules : List Rule) (out : List (Option Msg))
       (i : Nat) (r : Rule) (e : Option Msg),
      runRules prev prop msg true rules true = .done out →
      rules.get? i = some r → r.t = .fallback → out.get? i = some e →
      e.isSome = noPriorMatchB (rules.take i) (out.take i)) := by
  constructor
  · intro prev prop msg r ef entry ef2 mt ht h
    exact ruleStep_fallback_char prev prop msg r ef entry ef2 mt ht h
  · intro prev prop msg rules out i r e h hri hrt hei
    have hmain := runRules_flag_char prev prop msg rules true out h i r e hri hrt hei
    rw [hmain, noPriorMatchB]
    exact flagFold_since _

/-- Witness for C2: rules `[true, else]` on a matching message — the `else`
at position 1 does not match, and the tracker-characterisation evaluates to
false on the prefix where rule 0 matched. -/
theorem c2_else_corrected_witness :
    runRules JSVal.null (JSVal.bool true) msgTrue true [ruleTrue, ruleOtherwise] true =
      .done [some msgTrue, none] ∧
    (none : Option Msg).isSome =
      noPriorMatchB ([ruleTrue, ruleOtherwise].take 1) ([some msgTrue, none].take 1) := by
  refine ⟨by decide, ?_⟩
  exact c2_else_corrected.2 JSVal.null (JSVal.bool true) msgTrue [ruleTrue, ruleOtherwise]
    [some msgTrue, none] 1 ruleOtherwise none (by decide) rfl rfl rfl

theorem countP_isSome_replicate (n : Nat) :
    List.countP (fun e : Option Msg => e.isSome) (List.replicate n none) = 0 := by
  induction n with
  | zero => rfl
  | succ n ih => simp [List.replicate_succ, List.countP_cons, ih]

theorem runRules_first_match (prev prop : JSVal) (msg : Msg) :
    ∀ (rules : List Rule) (ef : Bool) (out : List (Option Msg)),
      runRules prev prop msg false rules ef = .done out →
      out = List.replicate rules.length none ∨
      ∃ k, k < rules.length ∧ out = List.replicate k none ++ [some msg] := by
  intro rules
  induction rules with
  | nil =>
    intro ef out h
    left
    have hout : out = [] := by simpa [runRules] using h.symm
    simp [hout]
  | cons r rest ih =>
    intro ef out h
    obtain ⟨entry, ef2, mt, hs, hcase⟩ := runRules_cons_done prev prop msg false r rest ef out h
    have hent := ruleStep_entry prev prop msg r ef entry ef2 mt hs
    rcases hcase with ⟨hb, hout⟩ | ⟨hb, out2, hr, hout⟩
    · right
      have hmt : mt = true := by simpa using hb
      subst hmt
      refine ⟨0, by simp, ?_⟩
      simp [hout, hent]
    · have hmt : mt = false := by simpa using hb
      subst hmt
      subst hout
      simp only [if_neg Bool.false_ne_true, Bool.false_eq_true, if_false] at hent
      subst hent
      rcases ih ef2 out2 hr with h1 | ⟨k, hk, h2⟩
      · left
        simp [h1, List.replicate_succ]
      · right
        refine ⟨k + 1, ?_, ?_⟩
        · simp only [List.length_cons]
          omega
        · simp [h2, List.replicate_succ]

/-- Claim C7, amended (corrected).  In first-match mode the emitted
per-port array has at most one non-absent slot, but the array does not
always cover all N ports: it is either the all-absent array of length N (no
rule matched) or is truncated immediately after the first matching rule —
`replicate k none ++ [some msg]` with `k` the matching rule's index — so
ports after the match receive no slot at all (observationally no message). -/
theorem c7_first_match_corrected (prev prop : JSVal) (msg : Msg) (rules : List Rule)
    (ef : Bool) (out : List (Option Msg))
    (h : runRules prev prop msg false rules ef = .done out) :
    List.countP (fun e => e.isSome) out ≤ 1 ∧
    (out = List.replicate rules.length none ∨
     ∃ k, k < rules.length ∧ out = List.replicate k none ++ [some msg]) := by
  have hd := runRules_first_match prev prop msg rules ef out h
  refine ⟨?_, hd⟩
  rcases hd with h1 | ⟨k, hk, h1⟩ <;> subst h1
  · simp [countP_isSome_replicate]
  · simp [List.countP_append, countP_isSome_replicate, List.countP_cons]

/-- Witness for C7: two matching rules in first-match mode emit the
truncated single-slot array. -/
theorem c7_first_match_corrected_witness :
    runRules JSVal.null (JSVal.bool true) msgTrue false [ruleTrue, ruleTrue] true =
      .done [some msgTrue] ∧
    List.countP (fun e : Option Msg => e.isSome) [some msgTrue] ≤ 1 := by
  refine ⟨by decide, ?_⟩
  exact (c7_first_match_corrected JSVal.null (JSVal.bool true) msgTrue [ruleTrue, ruleTrue]
    true [some msgTrue] (by decide)).1

/-- Claim C4, amended (corrected).  The positional operators never match
when the message's `parts` block is present but lacks the needed `index`
field (the "undefined positions" case), but a message with *no* `parts`
block at all makes them throw a `TypeError`: the whole message is then
dropped with a warning and no per-port array is emitted — the port does
not receive an absence marker and later rules are not evaluated. -/
theorem c4_positional_corrected :
    (∀ (a v1 v2 : JSVal) (cf : Bool) (p : Parts), p.index = none →
      applyOp .head a v1 v2 cf (some p) = .ok false ∧
      applyOp .tail a v1 v2 cf (some p) = .ok false ∧
      applyOp .index a v1 v2 cf (some p) = .ok false) ∧
    (∀ (a v1 v2 : JSVal) (cf : Bool),
      applyOp .head a v1 v2 cf none = .error () ∧
      applyOp .tail a v1 v2 cf none = .error () ∧
      applyOp .index a v1 v2 cf none = .error ()) ∧
    (∀ (cfg : SwitchConfig) (s : SwitchState) (msg : Msg) (r : Rule) (rest : List Rule)
       (prop v1 v2 : JSVal),
      cfg.rules = r :: rest → r.t = .head → msg.parts = none →
      resolveProp cfg msg = .ok prop →
      resolveV1 s.previousValue msg r = .ok v1 →
      resolveV2 s.previousValue msg r = .ok v2 →
      processMessage cfg s msg true = { s with warns := s.warns + 1 }) := by
  refine ⟨?_, ?_, ?_⟩
  · intro a v1 v2 cf p hidx
    refine ⟨?_, ?_, ?_⟩
    · cases htn : toNumber v1 <;> simp [applyOp, hidx, htn]
    · cases hpc : p.count <;> cases htn : toNumber v1 <;> simp [applyOp, hidx, hpc, htn]
    · cases htn : toNumber v1 <;> cases htn2 : toNumber v2 <;>
        simp [applyOp, hidx, htn, htn2]
  · intro a v1 v2 cf
    exact ⟨rfl, rfl, rfl⟩
  · intro cfg s msg r rest prop v1 v2 h1 h2 hmp h4 h5 h6
    have hhp : hasParts msg = false := by simp [hasParts, hmp]
    have hstep : ruleStep s.previousValue prop msg r true = .exn := by
      simp [ruleStep, h5, h6, h2, hmp, applyOp]
    have hrun : runRules s.previousValue prop msg cfg.checkall (r :: rest) true = .exn := by
      simp [runRules, hstep]
    have heval : evalMessage cfg s.previousValue msg = .exn := by
      simp [evalMessage, h4, h1, hrun]
    simp [processMessage, hhp, processMessageCore, heval]

/-- Witness for C4: a singleton `head` rule on a partless message drops the
message with one warning. -/
theorem c4_positional_corrected_witness :
    cfgC4.rules = ruleHead1 :: [] ∧ ruleHead1.t = .head ∧ msgNum5.parts = none ∧
    processMessage cfgC4 initState msgNum5 true = { initState with warns := 1 } := by
  refine ⟨rfl, rfl, rfl, ?_⟩
  exact c4_positional_corrected.2.2 cfgC4 initState msgNum5 ruleHead1 [] (.num 5) (.num 1)
    .undefined rfl rfl rfl rfl rfl rfl

/-- Claim C5 (confirmed).  Split-side buffering: the moment the group's
known declared count equals the number of accumulated fragments (the
incoming fragment included), every buffered fragment is handed to the rule
engine, in original arrival order, with its `parts.count` overwritten to
the known total, and the group's entry is removed from the split buffer;
when the count is unknown or differs from the accumulated length, no
release happens. -/
theorem c5_split_release :
    (∀ (cfg : SwitchConfig) (s : SwitchState) (msg : Msg) (p : Parts) (gid : GroupId)
       (c : Int),
      msg.parts = some p → p.id = some gid → p.index.isSome = true →
      (addMessageToGroup cfg s gid msg p).2.count = some c →
      (c == ((addMessageToGroup cfg s gid msg p).2.msgs.length : Int)) = true →
      (addMessageToPending cfg s msg).2 = true ∧
      (addMessageToPending cfg s msg).1.releases =
        s.releases ++
          (addMessageToGroup cfg s gid msg p).2.msgs.map (fun m => setCount m c) ∧
      alookup (addMessageToPending cfg s msg).1.pendingIn gid = none) ∧
    (∀ (cfg : SwitchConfig) (s : SwitchState) (msg : Msg) (p : Parts) (gid : GroupId),
      msg.parts = some p → p.id = some gid → p.index.isSome = true →
      (addMessageToGroup cfg s gid msg p).2.count = none →
      (addMessageToPending cfg s msg).1.releases = s.releases) ∧
    (∀ (cfg : SwitchConfig) (s : SwitchState) (msg : Msg) (p : Parts) (gid : GroupId)
       (c : Int),
      msg.parts = some p → p.id = some gid → p.index.isSome = true →
      (addMessageToGroup cfg s gid msg p).2.count = some c →
      (c == ((addMessageToGroup cfg s gid msg p).2.msgs.length : Int)) = false →
      (addMessageToPending cfg s msg).1.releases = s.releases) := by
  refine ⟨?_, ?_, ?_⟩
  · intro cfg s msg p gid c hp hid hidx hc hlen
    obtain ⟨i, hi⟩ := Option.isSome_iff_exists.mp hidx
    simp only [addMessageToPending, hp, hid, hi, hc, hlen]
    simp [releaseLoop_releases, addMessageToGroup_releases, alookup_aerase]
  · intro cfg s msg p gid hp hid hidx hc
    obtain ⟨i, hi⟩ := Option.isSome_iff_exists.mp hidx
    simp only [addMessageToPending, hp, hid, hi, hc]
    exact addMessageToGroup_releases cfg s gid msg p
  · intro cfg s msg p gid c hp hid hidx hc hlen
    obtain ⟨i, hi⟩ := Option.isSome_iff_exists.mp hidx
    simp only [addMessageToPending, hp, hid, hi, hc, hlen]
    simp only [Bool.false_eq_true, if_false]
    exact addMessageToGroup_releases cfg s gid msg p

/-- Witness for C5, the spec's example: fragments arriving with indices
`[2, 0, 1]` (count 3 declared on the first), released in arrival order
`[2, 0, 1]` only once the third arrives, each with `count` overwritten to
3, and the group destroyed. -/
theorem c5_split_release_witness :
    (addMessageToGroup cfgC5 stateC5 (.user "g") msgF1
      ⟨some (.user "g"), some 1, none⟩).2.count = some 3 ∧
    ((3 : Int) == ((addMessageToGroup cfgC5 stateC5 (.user "g") msgF1
      ⟨some (.user "g"), some 1, none⟩).2.msgs.length : Int)) = true ∧
    (addMessageToPending cfgC5 stateC5 msgF1).2 = true ∧
    (addMessageToPending cfgC5 stateC5 msgF1).1.releases =
      [setCount msgF2 3, setCount msgF0 3, setCount msgF1 3] ∧
    alookup (addMessageToPending cfgC5 stateC5 msgF1).1.pendingIn (.user "g") = none := by
  have h := c5_split_release.1 cfgC5 stateC5 msgF1 ⟨some (.user "g"), some 1, none⟩
    (.user "g") 3 rfl rfl rfl (by decide) (by decide)
  refine ⟨by decide, by decide, h.1, ?_, h.2.2⟩
  rw [h.2.1]
  decide

theorem nthD_mapRangeAux {α : Type} (f : Nat → α) (d : α) :
    ∀ (n start j : Nat), j < n → nthD (mapRangeAux f start n) j d = f (start + j) := by
  intro n
  induction n with
  | zero => intro start j h; omega
  | succ n ih =>
    intro start j h
    cases j with
    | zero => simp [mapRangeAux, nthD]
    | succ j =>
      have h2 := ih (start + 1) j (by omega)
      simp only [mapRangeAux, nthD]
      rw [h2]
      congr 1
      omega

theorem nthD_mapRange {α : Type} (f : Nat → α) (d : α) (n j : Nat) (h : j < n) :
    nthD (mapRange f n) j d = f j := by
  have h2 := nthD_mapRangeAux f d n 0 j h
  simpa using h2

theorem notNullAt_eq_isSome :
    ∀ (ow : List (Option Msg)) (j : Nat), j < ow.length →
      notNullAt ow j = (nthD ow j none).isSome := by
  intro ow
  induction ow with
  | nil => intro j h; simp at h
  | cons e t ih =>
    intro j h
    cases j with
    | zero => simp [notNullAt, nthD]
    | succ j =>
      simp only [notNullAt, nthD]
      exact ih j (by simpa using h)

theorem countNotNull_eq_length (pc j : Nat) (hj : j < pc) :
    ∀ (onwards : List (List (Option Msg))),
      (∀ ow ∈ onwards, ow.length = pc) →
      countNotNull onwards j = (portMsgs onwards j).length := by
  intro onwards
  induction onwards with
  | nil => intro _; rfl
  | cons ow rest ih =>
    intro hlen
    have h1 : ow.length = pc := hlen ow (by simp)
    have h2 := ih (fun x hx => hlen x (List.mem_cons_of_mem _ hx))
    have h3 := notNullAt_eq_isSome ow j (by omega)
    cases hv : nthD ow j none with
    | some m =>
      simp [countNotNull, portMsgs, h3, hv, h2]
      omega
    | none => simp [countNotNull, portMsgs, h3, hv, h2]

theorem sendBursts_length (ids : List GroupId) (counts : List Nat) (pc : Nat) :
    ∀ (onwards : List (List (Option Msg))) (idxs : List Nat),
      (sendBursts ids counts pc onwards idxs).length = onwards.length := by
  intro onwards
  induction onwards with
  | nil => intro idxs; rfl
  | cons ow rest ih => intro idxs; simp [sendBursts, ih]

theorem sendBursts_portTrace (ids : List GroupId) (counts : List Nat) (pc j : Nat)
    (hj : j < pc) :
    ∀ (onwards : List (List (Option Msg))) (idxs : List Nat),
      portMsgs (sendBursts ids counts pc onwards idxs) j =
      renumber (nthD ids j (GroupId.gen 0)) (nthD counts j 0) (nthD idxs j 0)
        (portMsgs onwards j) := by
  intro onwards
  induction onwards with
  | nil => intro idxs; rfl
  | cons ow rest ih =>
    intro idxs
    have hb : nthD (mapRange (fun j2 => (nthD ow j2 none).map (fun m =>
        cloneWith m (nthD ids j2 (GroupId.gen 0)) (nthD idxs j2 0) (nthD counts j2 0))) pc)
        j none =
        (nthD ow j none).map (fun m =>
          cloneWith m (nthD ids j (GroupId.gen 0)) (nthD idxs j 0) (nthD counts j 0)) :=
      nthD_mapRange _ _ pc j hj
    have hidx : nthD (mapRange (fun j2 =>
        nthD idxs j2 0 + (if (nthD ow j2 none).isSome then 1 else 0)) pc) j 0 =
        nthD idxs j 0 + (if (nthD ow j none).isSome then 1 else 0) :=
      nthD_mapRange _ _ pc j hj
    cases hv : nthD ow j none with
    | some m =>
      rw [hv] at hb hidx
      simp only [sendBursts, portMsgs, hb, hv, Option.map_some', Option.isSome_some,
        if_true, ih, hidx, renumber]
    | none =>
      rw [hv] at hb hidx
      simp only [sendBursts, portMsgs, hb, hv, Option.map_none', Option.isSome_none,
        Bool.false_eq_true, if_false, ih, hidx, Nat.add_zero]

/-- Claim C6, amended (corrected).  The regrouping property holds provided
every buffered decision array covers all ports — which is the case exactly
in exhaustive mode, where a completed rule pass always emits one slot per
rule (first conjunct).  Then, for every port, the messages emitted across
the bursts of one completed group are precisely the fragments routed to
that port, in original order, re-identified with one freshly generated
per-port group id (distinct between ports), consecutive zero-based indices
and `count` equal to the number of fragments routed to that port.  In
first-match mode decision arrays are truncated and the per-port `count`
can exceed the number of messages actually emitted (see the
counterexample). -/
theorem c6_regroup_exhaustive :
    (∀ (prev prop : JSVal) (msg : Msg) (rules : List Rule) (ef : Bool)
       (out : List (Option Msg)),
      runRules prev prop msg true rules ef = .done out → out.length = rules.length) ∧
    (∀ (s : SwitchState) (onwards : List (List (Option Msg))) (pc j : Nat),
      (∀ ow ∈ onwards, ow.length = pc) → j < pc →
      (sendGroup s onwards pc).outputs = s.outputs ++ sendGroupBursts s onwards pc ∧
      (sendGroupBursts s onwards pc).length = onwards.length ∧
      portMsgs (sendGroupBursts s onwards pc) j =
        renumber (GroupId.gen (s.nextGenId + j)) ((portMsgs onwards j).length) 0
          (portMsgs onwards j) ∧
      (∀ k, k < pc → k ≠ j →
        GroupId.gen (s.nextGenId + k) ≠ GroupId.gen (s.nextGenId + j))) := by
  constructor
  · intro prev prop msg rules ef out h
    exact runRules_exh_length prev prop msg rules ef out h
  · intro s onwards pc j hlen hj
    refine ⟨rfl, sendBursts_length _ _ _ onwards _, ?_, ?_⟩
    · have ht := sendBursts_portTrace
        (mapRange (fun k => GroupId.gen (s.nextGenId + k)) pc)
        (countsFor onwards pc) pc j hj onwards (mapRange (fun _ => 0) pc)
      have hid1 : nthD (mapRange (fun k => GroupId.gen (s.nextGenId + k)) pc) j
          (GroupId.gen 0) = GroupId.gen (s.nextGenId + j) := nthD_mapRange _ _ pc j hj
      have hc1 : nthD (countsFor onwards pc) j 0 = countNotNull onwards j := by
        rw [countsFor]
        exact nthD_mapRange _ _ pc j hj
      have hc2 := countNotNull_eq_length pc j hj onwards hlen
      have hi1 : nthD (mapRange (fun _ => (0 : Nat)) pc) j 0 = 0 :=
        nthD_mapRange _ _ pc j hj
      rw [sendGroupBursts, ht, hid1, hc1, hc2, hi1]
    · intro k hk hkj hcontra
      injection hcontra with h2
      omega

/-- Witness for C6: the spec's two-fragment example in exhaustive shape —
fragment 0 routed to port 0 only, fragment 1 to port 1 only; port 1's trace
is a fresh singleton sub-sequence with id `gen 1`, index 0, count 1. -/
theorem c6_regroup_exhaustive_witness :
    portMsgs (sendGroupBursts initState owPair 2) 1 =
      renumber (GroupId.gen 1) 1 0 (portMsgs owPair 1) := by
  have h := (c6_regroup_exhaustive.2 initState owPair 2 1 (by decide) (by decide)).2.2.1
  simpa using h
